import Mathlib

/-!
# Verification of the `typelib` marshalling/unmarshalling engine

A shallow embedding, in Lean 4, of the core data model and algorithms of the
`typelib` library (type-graph construction, the type context, and the
per-kind marshal/unmarshal conversion routines), together with theorems
settling the specification's claims about them.

Conventions of the embedding:

* Python runtime values are modelled by the inductive type `PyVal`.
  Machine floats are modelled by exact rationals (`Rat`); `datetime.timedelta`
  values are modelled by their total signed microsecond count, which is the
  exact internal representation CPython uses (days/seconds/microseconds).
* Exceptions are modelled by `Except PyErr`: Python routines that raise map
  to `.error e` for the corresponding exception class.
* Stateful constructs (the memoisation cache, the `TypeContext` mapping whose
  `__missing__` hook mutates it) are modelled by explicit state passing.
* Functions from the Python standard library or external dependencies
  (`json.loads` / `ast.literal_eval` scalar decoding, `pendulum` duration
  normalisation and parsing) are modelled on the fragment of their domain
  this development exercises; each such definition documents the modelling.
-/

namespace Typelib

/-- Model of a Python runtime value, covering the fragment of values the
conversion routines under study operate on. `vfloat` carries the exact
rational value of the float; `vtimedelta` carries the total number of
microseconds of a `datetime.timedelta`. Dictionary keys are modelled as
strings (the structured-record routines only consult string keys). -/
inductive PyVal where
  | vnone
  | vbool (b : Bool)
  | vint (n : Int)
  | vfloat (q : Rat)
  | vstr (s : String)
  | vbytes (s : String)
  | vlist (xs : List PyVal)
  | vtuple (xs : List PyVal)
  | vdict (xs : List (String × PyVal))
  | vtimedelta (usec : Int)

/-- Model of the Python exception classes the routines raise or catch. -/
inductive PyErr where
  | valueError
  | typeError
  | syntaxError
  | attributeError
  | keyError
  deriving BEq, DecidableEq

/-- A compiled unmarshal/marshal routine: `AbstractUnmarshaller.__call__`
(resp. `AbstractMarshaller.__call__`) as a function from an input value to a
result or a raised exception. -/
abbrev Routine := PyVal → Except PyErr PyVal

/-! ## `typelib.serdes` helpers -/

/-- `serdes.decode`: decode a bytes-like object into a `str`; any other value
is returned unchanged. -/
def decode : PyVal → PyVal
  | .vbytes s => .vstr s
  | v => v

/-- Numeral value of a list of decimal digits. -/
def digitsVal (cs : List Char) : Nat :=
  cs.foldl (fun a c => a * 10 + (c.toNat - '0'.toNat)) 0

/-- Strip leading and trailing whitespace from a character list
(the behaviour of `str.strip` that the builtin `int` applies first). -/
def stripWS (cs : List Char) : List Char :=
  ((cs.dropWhile Char.isWhitespace).reverse.dropWhile Char.isWhitespace).reverse

/-- Model of the Python builtin `int(str)` conversion on the canonical
fragment: optional surrounding whitespace, an optional sign, then decimal
digits.  (CPython additionally accepts digit-group underscores, which no
input in this development uses.) `Option.none` models the `ValueError` the
builtin raises on any other string. -/
def pyIntOfString (s : String) : Option Int :=
  match stripWS s.data with
  | [] => Option.none
  | '-' :: rest =>
      if rest ≠ [] ∧ rest.all Char.isDigit then some (-(digitsVal rest : Int))
      else Option.none
  | '+' :: rest =>
      if rest ≠ [] ∧ rest.all Char.isDigit then some ((digitsVal rest : Int))
      else Option.none
  | cs =>
      if cs.all Char.isDigit then some ((digitsVal cs : Int)) else Option.none

/-- `serdes.strload`: decode a string-like input into a Python value, first
via `json.loads`, then via `ast.literal_eval`, returning the decoded text
when both fail.  The two stdlib decoders are modelled on the scalar fragment
(integers, booleans, null/None, quoted strings); container-literal decoding
is never reached by the claims under study, whose container inputs are
already structured values. -/
def strload (s : String) : PyVal :=
  match pyIntOfString s with
  | some n => .vint n
  | Option.none =>
      if s = "true" ∨ s = "True" then .vbool true
      else if s = "false" ∨ s = "False" then .vbool false
      else if s = "null" ∨ s = "None" then .vnone
      else
        match s.data with
        | '"' :: rest =>
            if rest ≠ [] ∧ rest.getLast? = some '"' then
              .vstr (String.mk rest.dropLast)
            else .vstr s
        | _ => .vstr s

/-- `serdes.load`: attempt to decode text-like input (`str`/`bytes`),
returning any other value unchanged. -/
def load : PyVal → PyVal
  | .vstr s => strload s
  | .vbytes s => strload s
  | v => v

/-- `serdes.itervalues` over the values this development feeds to the
container routines: mappings yield their values, sequences their elements,
strings their characters.  (The reflective object branches of
`serdes.get_items_iter` are not exercised by these claims.) -/
def itervalues : PyVal → List PyVal
  | .vlist xs => xs
  | .vtuple xs => xs
  | .vdict xs => xs.map (·.2)
  | .vstr s => s.data.map (fun c => .vstr (String.mk [c]))
  | _ => []

/-- `serdes.iteritems` restricted to mapping inputs, the only shape the
structured-record claims feed it: a dict yields its key/value pairs in
insertion order. -/
def iteritems : PyVal → List (String × PyVal)
  | .vdict xs => xs
  | _ => []

/-! ## Python equality (`==`) -/

mutual

/-- Model of Python `==` on values: exact numeric comparison across the
numeric tower (`True == 1`, `2 == 2.0`), element-wise comparison for
containers, structural comparison otherwise.  (Python's order-insensitive
dict comparison is modelled order-sensitively; no dict ever reaches an
equality test in this development.) -/
def pyEq : PyVal → PyVal → Bool
  | .vnone, .vnone => true
  | .vbool x, .vbool y => x == y
  | .vbool x, .vint n => decide ((if x then 1 else (0 : Int)) = n)
  | .vint n, .vbool x => decide (n = (if x then 1 else (0 : Int)))
  | .vbool x, .vfloat q => decide (((if x then 1 else (0 : Int)) : Rat) = q)
  | .vfloat q, .vbool x => decide (q = ((if x then 1 else (0 : Int)) : Rat))
  | .vint n, .vint m => n == m
  | .vint n, .vfloat q => decide ((n : Rat) = q)
  | .vfloat q, .vint n => decide (q = (n : Rat))
  | .vfloat p, .vfloat q => decide (p = q)
  | .vstr s, .vstr t => s == t
  | .vbytes s, .vbytes t => s == t
  | .vlist xs, .vlist ys => pyEqList xs ys
  | .vtuple xs, .vtuple ys => pyEqList xs ys
  | .vdict xs, .vdict ys => pyEqPairs xs ys
  | .vtimedelta x, .vtimedelta y => x == y
  | _, _ => false

/-- Element-wise Python `==` on sequences. -/
def pyEqList : List PyVal → List PyVal → Bool
  | [], [] => true
  | a :: as, b :: bs => pyEq a b && pyEqList as bs
  | _, _ => false

/-- Pair-wise Python `==` on key/value pair lists. -/
def pyEqPairs : List (String × PyVal) → List (String × PyVal) → Bool
  | [], [] => true
  | (k, a) :: as, (l, b) :: bs => k == l && pyEq a b && pyEqPairs as bs
  | _, _ => false

end

/-- Model of Python's `in` membership test against a list of values. -/
def pyMem (v : PyVal) (values : List PyVal) : Bool :=
  values.any (fun w => pyEq v w)

/-! ## Unmarshal routines (`typelib.unmarshals.routines`) -/

/-- `LiteralUnmarshaller.__call__` with the declared value set `values`
(= `inspection.args(t)`): return the input if it is a member, otherwise
decode and re-test, otherwise raise `ValueError`. -/
def literalCall (values : List PyVal) (val : PyVal) : Except PyErr PyVal :=
  if pyMem val values then .ok val
  else
    let decoded := load val
    if pyMem decoded values then .ok decoded
    else .error .valueError

/-- The exception classes `UnionUnmarshaller.__call__` suppresses between
attempts: `(ValueError, TypeError, SyntaxError, AttributeError)`. -/
def suppressible : PyErr → Bool
  | .valueError => true
  | .typeError => true
  | .syntaxError => true
  | .attributeError => true
  | _ => false

/-- The member-routine loop of `UnionUnmarshaller.__call__`: try each
routine in order, suppressing value/type/syntax/attribute errors; the first
success wins; exhausting the stack raises `ValueError`. -/
def unionCall (routines : List Routine) (val : PyVal) : Except PyErr PyVal :=
  match routines with
  | [] => .error .valueError
  | r :: rest =>
      match r val with
      | .ok v => .ok v
      | .error e => if suppressible e then unionCall rest val else .error e

/-- The member-stack computation of `UnionUnmarshaller.__init__`: the
declared argument order, except that when the union is optional the last
member (Python places `NoneType` last in `Optional[...]` arguments) is
rotated to the front. -/
def unionStack {α : Type} (args : List α) (isOpt : Bool) : List α :=
  if isOpt then
    match args.getLast? with
    | some last => last :: args.dropLast
    | Option.none => args
  else args

/-- `isinstance(v, int)` — in Python `bool` is a subclass of `int`. -/
def isinstanceInt : PyVal → Bool
  | .vint _ => true
  | .vbool _ => true
  | _ => false

/-- Python truncation toward zero, `int(float)`: `Int.div` of the numerator
by the denominator is exactly CPython's truncating conversion. -/
def pytrunc (q : Rat) : Int :=
  q.num.tdiv (q.den : Int)

/-- The Python builtin `int(x)` applied to a single decoded value. -/
def intOf : PyVal → Except PyErr PyVal
  | .vint n => .ok (.vint n)
  | .vbool b => .ok (.vint (if b then 1 else 0))
  | .vfloat q => .ok (.vint (pytrunc q))
  | .vstr s =>
      match pyIntOfString s with
      | some n => .ok (.vint n)
      | Option.none => .error .valueError
  | _ => .error .typeError

/-- `int(*args)` — unpacking an iterable into the `int` constructor.  Zero
arguments yield `0`; one argument is a plain conversion; the two-argument
`int(text, base)` form is never produced by the inputs under study and is
modelled, like any longer argument list of non-text values, as the
`TypeError` CPython raises. -/
def intStar : List PyVal → Except PyErr PyVal
  | [] => .ok (.vint 0)
  | [x] => intOf x
  | _ => .error .typeError

/-- Whether the value's class is a mapping type. -/
def isMappingVal : PyVal → Bool
  | .vdict _ => true
  | _ => false

/-- Whether the value's class is an iterable, non-text type. -/
def isIterableNonText : PyVal → Bool
  | .vlist _ => true
  | .vtuple _ => true
  | .vdict _ => true
  | _ => false

/-- `NumberUnmarshaller.__call__` bound to `t = int`: decode bytes, return
`int` instances unchanged, convert temporal values via epoch seconds, unpack
mappings/iterables into the constructor, otherwise cast directly. -/
def numberUnmarshalInt (val : PyVal) : Except PyErr PyVal :=
  let decoded := decode val
  if isinstanceInt decoded then .ok decoded
  else
    let decoded :=
      match val with
      | .vtimedelta us => .vfloat ((us : Rat) / 1000000)
      | _ => decoded
    if isMappingVal decoded then .error .typeError
    else if isIterableNonText decoded then
      match decoded with
      | .vlist xs => intStar xs
      | .vtuple xs => intStar xs
      | _ => .error .typeError
    else intOf decoded

/-- Python `str(x)` on the values this development passes to it.  The
rendering of floats and containers approximates CPython `repr` and is not
relied upon by any theorem. -/
def pyStr : PyVal → String
  | .vnone => "None"
  | .vbool b => if b then "True" else "False"
  | .vint n => toString n
  | .vfloat q => toString q.num ++ "/" ++ toString q.den
  | .vstr s => s
  | .vbytes s => s
  | .vlist _ => "[...]"
  | .vtuple _ => "(...)"
  | .vdict _ => "{...}"
  | .vtimedelta us => toString us

/-- `StringUnmarshaller.__call__` bound to `t = str`: decode bytes, return
`str` instances unchanged, ISO-format temporal inputs, stringify the rest.
(Parameterised by the ISO duration formatter, which is defined below.) -/
def stringUnmarshalWith (isoOfTimedelta : Int → String) (val : PyVal) :
    Except PyErr PyVal :=
  let decoded := decode val
  match decoded with
  | .vstr s => .ok (.vstr s)
  | _ =>
      match val with
      | .vtimedelta us => .ok (.vstr (isoOfTimedelta us))
      | _ => .ok (.vstr (pyStr decoded))

/-! ## ISO-8601 duration formatting (`serdes.isoformat`) -/

/-- One `f"{p}{s}"` component of `serdes.isoformat`, kept only when the
component value `p` is non-zero (the `if p` truthiness filter). -/
def partStr (p : Nat) (unit : String) : String :=
  if p ≠ 0 then toString p ++ unit else ""

/-- Left-pad a numeral string with zeros to six places: `f"{us:06}"`. -/
def pad6 (n : Nat) : String :=
  let s := toString n
  String.mk (List.replicate (6 - s.length) '0') ++ s

/-- The duration branch of `serdes.isoformat`, for a non-negative
`datetime.timedelta` of `usTotal` total microseconds.

The `pendulum.duration(days=..., seconds=..., microseconds=...)` properties
the source reads are modelled per pendulum's documented normalisation:
`years`/`months` are only non-zero when passed explicitly (the source never
passes them, so both are `0`), `remaining_days` is the day count modulo 7
(the rest of the days go to the `weeks` property, which the source does not
read), `hours`/`minutes`/`remaining_seconds` decompose the second count, and
`microseconds` is the sub-second microsecond count.  Negative durations
(whose sign handling in pendulum this model does not cover) do not occur in
the claims under study. -/
def isoformatTimedelta (usTotal : Nat) : String :=
  let us := usTotal % 1000000
  let totalSeconds := usTotal / 1000000
  let days := totalSeconds / 86400
  let secs := totalSeconds % 86400
  let years := 0
  let months := 0
  let remainingDays := days % 7
  let hours := secs / 3600
  let minutes := secs % 3600 / 60
  let remainingSeconds := secs % 60
  let datepart := partStr years "Y" ++ partStr months "M" ++ partStr remainingDays "D"
  let secondsPart :=
    if us ≠ 0 then toString remainingSeconds ++ "." ++ pad6 us ++ "S"
    else partStr remainingSeconds "S"
  let timepart := partStr hours "H" ++ partStr minutes "M" ++ secondsPart
  "P" ++ datepart ++ "T" ++ timepart

/-- `serdes.isoformat` on a `datetime.timedelta` value of `us` total
microseconds (restricted to the non-negative durations this development
studies). -/
def isoformat (us : Int) : String := isoformatTimedelta us.toNat

/-- `TimeDeltaMarshaller` (= `ToISOTimeMarshaller` bound to
`datetime.timedelta`): format the input via `serdes.isoformat`.  Only
timedelta inputs are modelled; the marshaller is only ever invoked on values
of its bound type. -/
def timedeltaMarshal : Routine
  | .vtimedelta us => .ok (.vstr (isoformat us))
  | _ => .error .typeError

/-! ## ISO-8601 duration parsing (`serdes.dateparse` for `timedelta`) -/

/-- Digits prefix of a character list, with the remainder. -/
def takeDigits (cs : List Char) : List Char × List Char :=
  (cs.takeWhile Char.isDigit, cs.dropWhile Char.isDigit)

/-- Parse one `<digits><unit>` duration component; on failure return `0`
consumed and the input unchanged. -/
def parseComp (unit : Char) (cs : List Char) : Nat × List Char :=
  let (ds, rest) := takeDigits cs
  match rest with
  | u :: rest' => if ds ≠ [] ∧ u = unit then (digitsVal ds, rest') else (0, cs)
  | [] => (0, cs)

/-- Modelled from the external `pendulum` dependency: parsing of an
ISO-8601 duration string `P[nW][nY][nM][nD][T[nH][nM][n[.frac]S]]` into a
total microsecond count, using pendulum's calendar conventions for
durations built by its parser (`1Y = 365 days`, `1M = 30 days`,
`1W = 7 days`).  Fractional components other than seconds, and the
date-time (non-duration) forms accepted by `pendulum.parse`, are outside
the fragment this development evaluates. -/
def parseIsoDuration (s : String) : Option Nat :=
  match s.data with
  | 'P' :: cs =>
      let (w, cs) := parseComp 'W' cs
      let (y, cs) := parseComp 'Y' cs
      let (mo, cs) := parseComp 'M' cs
      let (d, cs) := parseComp 'D' cs
      let dateUs := (y * 365 + mo * 30 + w * 7 + d) * 86400 * 1000000
      match cs with
      | [] => some dateUs
      | 'T' :: cs =>
          let (h, cs) := parseComp 'H' cs
          let (mi, cs) := parseComp 'M' cs
          let (ds, cs) := takeDigits cs
          let timeNoSec := (h * 3600 + mi * 60) * 1000000
          match ds, cs with
          | [], [] => some (dateUs + timeNoSec)
          | _ :: _, 'S' :: rest =>
              if rest = [] then some (dateUs + timeNoSec + digitsVal ds * 1000000)
              else Option.none
          | _ :: _, '.' :: rest =>
              -- fractional seconds; the six-digit form this development's
              -- formatter emits
              let (fs, rest') := takeDigits rest
              match rest' with
              | 'S' :: rest'' =>
                  if rest'' = [] ∧ fs.length = 6 then
                    some (dateUs + timeNoSec + digitsVal ds * 1000000 + digitsVal fs)
                  else Option.none
              | _ => Option.none
          | _, _ => Option.none
      | _ => Option.none
  | _ => Option.none

/-- `serdes.dateparse` with target type `datetime.timedelta`: try the
permissive parser on the string (returning a `pendulum.Duration` for
ISO-duration input); if that fails (`ValueError`) and the string is all
digits, interpret it as a second count; otherwise re-raise.  A string that
parses as a date/time rather than a duration also raises `ValueError`
(from `_nomalize_dt`), which coincides with the parse-failure branch here
for every input this development evaluates. -/
def dateparseTimedelta (s : String) : Except PyErr Int :=
  match parseIsoDuration s with
  | some us => .ok (us : Int)
  | Option.none =>
      if s.data ≠ [] ∧ s.data.all Char.isDigit then
        .ok ((digitsVal s.data : Int) * 1000000)
      else .error .valueError

/-- `TimeDeltaUnmarshaller.__call__` bound to `t = datetime.timedelta`:
numeric input (Python `bool` included, being an `int` subclass) becomes
`t(seconds=int(val))`; otherwise decode bytes, parse strings via
`serdes.dateparse`, pass timedelta values through, and fail with the
`AttributeError` of `td.total_seconds()` on anything else.  The final
exact-class narrowing (`self.t(seconds=td.total_seconds())`) maps a parsed
`pendulum.Duration` to a plain timedelta with the same value, which the
microsecond-count model represents identically. -/
def timedeltaUnmarshal : Routine
  | .vint n => .ok (.vtimedelta (n * 1000000))
  | .vbool b => .ok (.vtimedelta (if b then 1000000 else 0))
  | .vfloat q => .ok (.vtimedelta (pytrunc q * 1000000))
  | val =>
      match decode val with
      | .vstr s => (dateparseTimedelta s).map (fun us => .vtimedelta us)
      | .vtimedelta us => .ok (.vtimedelta us)
      | _ => .error .attributeError

/-- `StringUnmarshaller` with the real ISO formatter plugged in. -/
def stringUnmarshal : Routine := stringUnmarshalWith isoformat

/-! ## Fixed-tuple routines -/

/-- The zip-and-convert loop shared by `FixedTupleUnmarshaller.__call__`
and `FixedTupleMarshaller.__call__`: apply the per-position routines to the
input's values pairwise, stopping at the shorter of the two lists; an
exception raised by a member routine propagates. -/
def zipApply : List Routine → List PyVal → Except PyErr (List PyVal)
  | r :: rs, v :: vs => do
      let x ← r v
      let xs ← zipApply rs vs
      return x :: xs
  | _, _ => .ok []

/-- `FixedTupleUnmarshaller.__call__`: decode the input, then zip the
ordered routine stack against its values into the tuple constructor. -/
def fixedTupleUnmarshal (routines : List Routine) (val : PyVal) :
    Except PyErr PyVal := do
  let decoded := load val
  let xs ← zipApply routines (itervalues decoded)
  return .vtuple xs

/-- `FixedTupleMarshaller.__call__`: zip the ordered routine stack against
the source tuple's values into a plain list (no decode on the marshal
side). -/
def fixedTupleMarshal (routines : List Routine) (val : PyVal) :
    Except PyErr PyVal := do
  let xs ← zipApply routines (itervalues val)
  return .vlist xs

/-! ## Structured-record routines -/

/-- Field-table lookup: `f in fields` / `fields[f]` over the compiled
field-name→routine table. -/
def fieldsLookup (fields : List (String × Routine)) (f : String) :
    Option Routine :=
  match fields.find? (fun p => p.1 == f) with
  | some p => some p.2
  | Option.none => Option.none

/-- The keyword-argument construction loop shared by
`StructuredTypeUnmarshaller.__call__` and (with the result dict itself as
the constructor) `StructuredTypeMarshaller.__call__`:
`{f: fields[f](v) for f, v in items if f in fields}` — each input pair whose
key is present in the field table is converted by that field's routine;
pairs with unknown keys are skipped. -/
def structKwargs (fields : List (String × Routine)) :
    List (String × PyVal) → Except PyErr (List (String × PyVal))
  | [] => .ok []
  | (f, v) :: rest =>
      match fieldsLookup fields f with
      | some r => do
          let x ← r v
          let xs ← structKwargs fields rest
          return (f, x) :: xs
      | Option.none => structKwargs fields rest

/-- `StructuredTypeUnmarshaller.__call__`: decode the input, build the
keyword arguments from the field table, and invoke the bound type's
constructor (abstracted as `construct`, since the bound type is arbitrary).
-/
def structUnmarshal (fields : List (String × Routine))
    (construct : List (String × PyVal) → Except PyErr PyVal) (val : PyVal) :
    Except PyErr PyVal := do
  let decoded := load val
  let kwargs ← structKwargs fields (iteritems decoded)
  construct kwargs

/-- `StructuredTypeMarshaller.__call__`: the same field-table filter over
the source instance's field/value pairs (`serdes.iteritems(val)`, modelled
as the instance's `items` list), producing a plain dict. -/
def structMarshal (fields : List (String × Routine))
    (items : List (String × PyVal)) : Except PyErr PyVal := do
  let kwargs ← structKwargs fields items
  return .vdict kwargs

/-! ## Memoised compilation entry points (`marshals.api.marshaller`,
`unmarshals.api.unmarshaller`) -/

/-- One call through the `@compat.cache` (= `functools.cache`) wrapper
around a compilation entry point `f`: on a hit return the stored routine
(the very object stored by the earlier call — `functools.cache` performs no
recomputation); on a miss invoke `f`, store and return the result.  The
third component records whether the wrapped function was invoked. -/
def cachedCall {α β : Type} [DecidableEq α] (f : α → β)
    (cache : List (α × β)) (a : α) : β × List (α × β) × Bool :=
  match cache.find? (fun p => p.1 = a) with
  | some p => (p.2, cache, false)
  | Option.none => (f a, cache ++ [(a, f a)], true)

/-! ## The type context (`typelib.ctx.TypeContext`) -/

/-- A key of the type context: a concrete type (of arbitrary type-model
`τ`) or a `typing.ForwardRef` identified by its reference string. -/
inductive CtxKey (τ : Type) where
  | concrete (t : τ)
  | fref (name : String)
  deriving DecidableEq

/-- Plain association-list lookup, the `dict.__getitem__` fast path. -/
def ctxFind {τ V : Type} [DecidableEq τ] (ctx : List (CtxKey τ × V))
    (key : CtxKey τ) : Option V :=
  match ctx.find? (fun p => p.1 = key) with
  | some p => some p.2
  | Option.none => Option.none

/-- `TypeContext.__missing__`: a missed `ForwardRef` raises `KeyError`
immediately; otherwise, if the unwrapped form of the key is present, its
routine is returned and additionally stored at the originally requested key;
otherwise the lookup is retried once with a forward-reference form of the
key (a second miss there raises `KeyError` via the first rule).

`inspection.unwrap` is called here but is not defined anywhere under `src/`;
it is modelled from the spec as an abstract normalisation `unwrap : τ → τ`
("a miss on the exact key triggers a fallback attempt to resolve via a
normalized/placeholder form of the same type").  `refs.forwardref` is
likewise abstracted as `mkref : τ → String`. -/
def ctxMissing {τ V : Type} [DecidableEq τ] (unwrap : τ → τ)
    (mkref : τ → String) (ctx : List (CtxKey τ × V)) (key : CtxKey τ) :
    Except PyErr (V × List (CtxKey τ × V)) :=
  match key with
  | .fref _ => .error .keyError
  | .concrete t =>
      match ctxFind ctx (.concrete (unwrap t)) with
      | some v => .ok (v, ctx ++ [(key, v)])
      | Option.none =>
          match ctxFind ctx (.fref (mkref t)) with
          | some v => .ok (v, ctx)
          | Option.none => .error .keyError

/-- `TypeContext.__getitem__`: return the stored routine on a hit, else run
the `__missing__` hook.  The context is returned alongside the value because
`__missing__` may store a new entry. -/
def ctxGetItem {τ V : Type} [DecidableEq τ] (unwrap : τ → τ)
    (mkref : τ → String) (ctx : List (CtxKey τ × V)) (key : CtxKey τ) :
    Except PyErr (V × List (CtxKey τ × V)) :=
  match ctxFind ctx key with
  | some v => .ok (v, ctx)
  | Option.none => ctxMissing unwrap mkref ctx key

/-! ## The type graph (`typelib.graph.get_type_graph` / `static_order`)

Type annotations are modelled by `GTy`: stdlib scalars, subscripted
generics (`dict[k, v]`, binary unions — Python flattens nested unions, so
binary members suffice for the claims under study), `typing.Literal`,
user-defined structured types referenced by name (their declared fields
live in a `StructEnv`), `typing.ForwardRef` placeholders, and
`typing.Any`. -/

inductive GTy where
  | tstr
  | tint
  | tbool
  | tnone
  | tany
  | tdict (k v : GTy)
  | tunion (a b : GTy)
  | tlit (vals : List Int)
  | tstruct (name : String)
  | tref (name : String)
  deriving DecidableEq

/-- The declared fields of each user-defined structured type, in
declaration order: the oracle behind `inspection.get_type_hints`. -/
abbrev StructEnv := List (String × List (String × GTy))

/-- `inspection.isliteral`. -/
def isliteralG : GTy → Bool
  | .tlit _ => true
  | _ => false

/-- `inspection.issubscriptedgeneric`: subscripted typing generics. -/
def issubscriptedG : GTy → Bool
  | .tdict _ _ => true
  | .tunion _ _ => true
  | .tlit _ => true
  | _ => false

/-- `inspection.isstdlibtype`: structured (user-defined) types are not
stdlib; unions are stdlib when all their members are.  For subscripted
generics the value never influences `get_type_graph` (they are already
cycle-candidates via `issubscriptedgeneric`). -/
def isstdlibG : GTy → Bool
  | .tstruct _ => false
  | .tref _ => false
  | .tunion a b => isstdlibG a && isstdlibG b
  | _ => true

/-- The cycle-candidate test of `get_type_graph`: only subscripted generics
or non-stdlib types can be cyclic. -/
def canBeCyclic (t : GTy) : Bool :=
  issubscriptedG t || !isstdlibG t

/-- `inspection.qualname`-derived reference name used for the
forward-reference placeholder. -/
def tyName : GTy → String
  | .tstr => "str"
  | .tint => "int"
  | .tbool => "bool"
  | .tnone => "NoneType"
  | .tany => "Any"
  | .tdict _ _ => "dict"
  | .tunion _ _ => "Union"
  | .tlit _ => "Literal"
  | .tstruct n => n
  | .tref n => n

/-- `graph._level`: the structural children of a type — the type arguments
of a subscripted generic (unnamed), then the declared fields of a
structured type (named).  Stdlib scalars have neither type arguments nor
type hints. -/
def level (env : StructEnv) : GTy → List (Option String × GTy)
  | .tdict k v => [(Option.none, k), (Option.none, v)]
  | .tunion a b => [(Option.none, a), (Option.none, b)]
  | .tstruct n =>
      match env.find? (fun p => p.1 == n) with
      | some p => p.2.map (fun f => (some f.1, f.2))
      | Option.none => []
  | _ => []

/-- `graph.TypeNode`: a vertex of the type graph.  (Python equality and
hashing exclude `cyclic`; where that matters — `graphlib` node identity —
the projection `nodeKey` is used.) -/
structure TypeNode where
  ty : GTy
  var : Option String := Option.none
  cyclic : Bool := false
  deriving DecidableEq

/-- The (type, var) pair that determines `TypeNode.__eq__`/`__hash__`. -/
def nodeKey (n : TypeNode) : GTy × Option String := (n.ty, n.var)

/-- The mutable state of the `get_type_graph` work loop: the BFS work
queue, the visited-type set, the accumulated `(parent, predecessors)`
graph entries, and — for the claims about enqueueing — the trace of every
type ever placed on the work queue, in order. -/
structure BuildState where
  stack : List TypeNode
  visited : List GTy
  graph : List (TypeNode × List TypeNode)
  trace : List GTy
  deriving DecidableEq

/-- Processing of one child `(var, child)` in the `for var, child in
_level(parent.type)` loop: skip absent/`Any` annotations; a visited
cycle-candidate becomes a forward-reference placeholder node (not
re-enqueued); any other child becomes a normal node, is marked visited
(`set.add`, idempotent) and enqueued.  Either node is recorded as a
predecessor. -/
def childStep (acc : BuildState × List TypeNode)
    (child : Option String × GTy) : BuildState × List TypeNode :=
  let (st, preds) := acc
  let (var, c) := child
  if c = .tany then (st, preds)
  else if c ∈ st.visited ∧ canBeCyclic c = true then
    let node : TypeNode := ⟨.tref (tyName c), var, true⟩
    (st, preds ++ [node])
  else
    let node : TypeNode := ⟨c, var, false⟩
    let visited' := if c ∈ st.visited then st.visited else st.visited ++ [c]
    ({ st with
        stack := st.stack ++ [node]
        visited := visited'
        trace := st.trace ++ [c] },
      preds ++ [node])

/-- One iteration of the `while stack` loop body, applied to a popped
`parent` node: literals are added as leaves; otherwise the children are
processed and the parent is added with its predecessors. -/
def processNode (env : StructEnv) (parent : TypeNode) (st : BuildState) :
    BuildState :=
  if isliteralG parent.ty then { st with graph := st.graph ++ [(parent, [])] }
  else
    let (st', preds) := (level env parent.ty).foldl childStep (st, [])
    { st' with graph := st'.graph ++ [(parent, preds)] }

/-- The `while stack` loop of `get_type_graph`, with explicit fuel (the
loop has no structural termination measure; termination is the subject of
claim C2). -/
def buildLoop (env : StructEnv) : Nat → BuildState → Option BuildState
  | 0, st => if st.stack.isEmpty then some st else Option.none
  | fuel + 1, st =>
      match st.stack with
      | [] => some st
      | parent :: rest => buildLoop env fuel (processNode env parent { st with stack := rest })

/-- The initial state of `get_type_graph`: the root node seeded on the
queue, its type pre-visited. -/
def initState (root : GTy) : BuildState :=
  ⟨[⟨root, Option.none, false⟩], [root], [], [root]⟩

/-- `graph.get_type_graph` with the given fuel. -/
def getTypeGraph (env : StructEnv) (root : GTy) (fuel : Nat) :
    Option BuildState :=
  buildLoop env fuel (initState root)

/-- All nodes mentioned in the graph (keys and predecessors), de-duplicated
by `graphlib`'s node identity (`nodeKey`), first occurrence kept. -/
def allNodes (g : List (TypeNode × List TypeNode)) : List TypeNode :=
  (g.foldl (fun acc e => acc ++ [e.1] ++ e.2) []).foldl
    (fun acc n => if acc.any (fun m => nodeKey m = nodeKey n) then acc else acc ++ [n]) []

/-- The predecessors recorded for a node (under `graphlib` node
identity). -/
def predsOf (g : List (TypeNode × List TypeNode)) (n : TypeNode) :
    List TypeNode :=
  (g.filter (fun e => nodeKey e.1 = nodeKey n)).foldl (fun acc e => acc ++ e.2) []

/-- Kahn's-algorithm emission loop of
`graphlib.TopologicalSorter.static_order`: repeatedly emit every remaining
node all of whose predecessors have been emitted. -/
def kahnLoop (g : List (TypeNode × List TypeNode)) :
    Nat → List TypeNode → List TypeNode → List TypeNode
  | 0, emitted, _ => emitted
  | fuel + 1, emitted, remaining =>
      let ready := remaining.filter
        (fun n => (predsOf g n).all (fun p => emitted.any (fun m => nodeKey m = nodeKey p)))
      match ready with
      | [] => emitted
      | _ =>
          kahnLoop g fuel (emitted ++ ready)
            (remaining.filter (fun n => !(ready.any (fun m => nodeKey m = nodeKey n))))

/-- `graphlib.TopologicalSorter.static_order` over the accumulated graph:
a topological linearisation with every predecessor before its dependents.
(The `CycleError` branch of `graphlib` is unreachable for the graphs
`get_type_graph` builds, whose cycles are broken by placeholders.) -/
def staticOrder (g : List (TypeNode × List TypeNode)) : List TypeNode :=
  let ns := allNodes g
  kahnLoop g ns.length [] ns

/-- The self-referential record `R { next: R | None }` of claim C1. -/
def envR : StructEnv := [("R", [("next", .tunion (.tstruct "R") .tnone)])]

/-! ## Termination potential for `get_type_graph`

The loop has no structural measure; the potential below decreases strictly
at every iteration, over any finite, child-closed universe `U` of types
containing everything reachable. -/

/-- Weight of a type on the work queue: cycle-candidates pay for their
children ahead of time (a candidate is enqueued at most once), leaves pay a
unit (they may be re-enqueued once per occurrence as a child). -/
def wTy (env : StructEnv) (t : GTy) : Nat :=
  if canBeCyclic t then 1 + 2 * (level env t).length else 1

/-- The termination potential: unvisited universe members plus the work
queue, weighted. -/
def phi (env : StructEnv) (U : List GTy) (s : BuildState) : Nat :=
  ((U.filter (fun t => decide (t ∉ s.visited))).map (fun t => wTy env t + 1)).sum
    + (s.stack.map (fun n => wTy env n.ty)).sum

/-- The loop invariant of `get_type_graph`: queued types lie in the
universe, no cycle-candidate has been enqueued twice, and every enqueued
cycle-candidate has been marked visited. -/
structure Inv (U : List GTy) (s : BuildState) : Prop where
  stackU : ∀ n ∈ s.stack, n.ty ∈ U
  traceNodup : (s.trace.filter canBeCyclic).Nodup
  traceVisited : ∀ t ∈ s.trace, canBeCyclic t = true → t ∈ s.visited

/-- Child-closure of a universe of types: every non-`Any` structural child
of a member is a member. -/
def ClosedU (env : StructEnv) (U : List GTy) : Prop :=
  ∀ t ∈ U, ∀ p ∈ level env t, p.2 ≠ GTy.tany → p.2 ∈ U

/-! ## Concrete claim instances and remaining routine compositions -/

/-- The set of types reachable from `R { next: R | None }`: a child-closed
universe witnessing termination for claim C2's instance. -/
def UR : List GTy := [.tstruct "R", .tunion (.tstruct "R") .tnone, .tnone]

/-- `UnionUnmarshaller` for a union with the given members: the resolved
member routines (`self.context[typ]`, abstracted as `resolve`) in stack
order, tried by `unionCall`. -/
def unionUnmarshaller (members : List GTy) (isOpt : Bool)
    (resolve : GTy → Routine) : Routine :=
  fun val => unionCall ((unionStack members isOpt).map resolve)  val

/-- The context-resolved member routines for `Union[int, str]`:
`NumberUnmarshaller` for `int`, `StringUnmarshaller` for `str`. -/
def resolveIntStr : GTy → Routine
  | .tint => numberUnmarshalInt
  | .tstr => stringUnmarshal
  | _ => fun _ => .error .keyError

/-- `ToStringMarshaller` (= `StringMarshaller`): `str(val)`. -/
def stringMarshal : Routine := fun v => .ok (.vstr (pyStr v))

/-- `CastMarshaller` bound to `t = int` (= `IntegerMarshaller`):
`self.origin(val)` is the builtin `int` constructor. -/
def intCastMarshal : Routine := fun v => intOf v

/-- The compiled field table for the record `Data{field: str, value: int}`
used in claim C7's concrete instance. -/
def dataFields : List (String × Routine) :=
  [("field", stringUnmarshal), ("value", numberUnmarshalInt)]

/-- A constructor that records the keyword arguments it received, for
observing exactly which fields the structured routines convert. -/
def okDictConstruct : List (String × PyVal) → Except PyErr PyVal :=
  fun kwargs => .ok (.vdict kwargs)

/-- The exact rational value `19/10` standing for the Python float literal
`1.9` in claim C9's concrete instance (the binary double nearest 1.9
truncates to the same integer part). -/
def ratNineteenTenths : Rat := ⟨19, 10, by norm_num, by norm_num⟩

/-- The `@compat.cache`-wrapped `marshals.api.marshaller` entry point, with
the routine-compilation body abstracted as `compile`. -/
def marshallerMemo (compile : GTy → Routine)
    (cache : List (GTy × Routine)) (t : GTy) :
    Routine × List (GTy × Routine) × Bool :=
  cachedCall compile cache t

/-- The `@compat.cache`-wrapped `unmarshals.api.unmarshaller` entry point,
with the routine-compilation body abstracted as `compile`. -/
def unmarshallerMemo (compile : GTy → Routine)
    (cache : List (GTy × Routine)) (t : GTy) :
    Routine × List (GTy × Routine) × Bool :=
  cachedCall compile cache t

/-! ## Lemmas: the `get_type_graph` potential decreases -/

theorem level_eq_nil_of_not_cyclic (env : StructEnv) (t : GTy)
    (h : canBeCyclic t = false) : level env t = [] := by
  cases t <;> simp_all [canBeCyclic, issubscriptedG, isstdlibG, level]

theorem wTy_pos (env : StructEnv) (t : GTy) : 1 ≤ wTy env t := by
  unfold wTy
  split <;> omega

theorem sum_filter_le_of_imp (w : GTy → Nat) (p q : GTy → Bool)
    (h : ∀ t, p t = true → q t = true) :
    ∀ U : List GTy, ((U.filter p).map w).sum ≤ ((U.filter q).map w).sum := by
  intro U
  induction U with
  | nil => simp
  | cons a U ih =>
      cases hp : p a with
      | true =>
          have hq := h a hp
          simp only [List.filter_cons, hp, hq, if_true, List.map_cons, List.sum_cons]
          omega
      | false =>
          cases hq : q a with
          | true =>
              simp only [List.filter_cons, hp, hq, Bool.false_eq_true, if_false,
                if_true, List.map_cons, List.sum_cons]
              omega
          | false =>
              simp only [List.filter_cons, hp, hq, Bool.false_eq_true, if_false]
              exact ih

theorem sum_filter_drop (w : GTy → Nat) (p q : GTy → Bool) (c : GTy)
    (hpq : ∀ t, p t = true → q t = true) (hqc : q c = true) (hpc : p c = false) :
    ∀ U : List GTy, c ∈ U →
      ((U.filter p).map w).sum + w c ≤ ((U.filter q).map w).sum := by
  intro U
  induction U with
  | nil => intro h; cases h
  | cons a U ih =>
      intro hmem
      rcases List.mem_cons.mp hmem with heq | hc
      · subst heq
        simp only [List.filter_cons, hpc, hqc, Bool.false_eq_true, if_false, if_true,
          List.map_cons, List.sum_cons]
        have := sum_filter_le_of_imp w p q hpq U
        omega
      · cases hp : p a with
        | true =>
            have hq := hpq a hp
            simp only [List.filter_cons, hp, hq, if_true, List.map_cons, List.sum_cons]
            have := ih hc
            omega
        | false =>
            cases hq : q a with
            | true =>
                simp only [List.filter_cons, hp, hq, Bool.false_eq_true, if_false,
                  if_true, List.map_cons, List.sum_cons]
                have := ih hc
                omega
            | false =>
                simp only [List.filter_cons, hp, hq, Bool.false_eq_true, if_false]
                exact ih hc

theorem childStep_spec (env : StructEnv) (U : List GTy) (var : Option String)
    (c : GTy) (st : BuildState) (preds : List TypeNode)
    (hcU : c ≠ GTy.tany → c ∈ U) (hInv : Inv U st) :
    Inv U (childStep (st, preds) (var, c)).1 ∧
    phi env U (childStep (st, preds) (var, c)).1 ≤ phi env U st + 1 := by
  by_cases htany : c = GTy.tany
  · subst htany
    simp only [childStep, if_pos rfl]
    exact ⟨hInv, Nat.le_succ _⟩
  · by_cases hvis : c ∈ st.visited ∧ canBeCyclic c = true
    · simp only [childStep, if_neg htany, if_pos hvis]
      exact ⟨hInv, Nat.le_succ _⟩
    · have hcU' : c ∈ U := hcU htany
      by_cases hmem : c ∈ st.visited
      · -- a visited non-cycle-candidate: re-enqueued, visited set unchanged
        have hcyc : canBeCyclic c = false := by
          cases h : canBeCyclic c with
          | true => exact absurd ⟨hmem, h⟩ hvis
          | false => rfl
        simp only [childStep, if_neg htany, if_neg hvis, if_pos hmem]
        refine ⟨⟨?_, ?_, ?_⟩, ?_⟩
        · intro n hn
          rcases List.mem_append.mp hn with h | h
          · exact hInv.stackU n h
          · simp only [List.mem_singleton] at h
            subst h
            exact hcU'
        · simpa [List.filter_append, hcyc] using hInv.traceNodup
        · intro t ht hcap
          rcases List.mem_append.mp ht with h | h
          · exact hInv.traceVisited t h hcap
          · simp only [List.mem_singleton] at h
            subst h
            exact absurd hcap (by simp [hcyc])
        · simp only [phi, List.map_append, List.sum_append, List.map_cons,
            List.sum_cons, List.map_nil, List.sum_nil, wTy, hcyc,
            Bool.false_eq_true, if_false]
          omega
      · -- a fresh child: enqueued and marked visited
        simp only [childStep, if_neg htany, if_neg hvis, if_neg hmem]
        refine ⟨⟨?_, ?_, ?_⟩, ?_⟩
        · intro n hn
          rcases List.mem_append.mp hn with h | h
          · exact hInv.stackU n h
          · simp only [List.mem_singleton] at h
            subst h
            exact hcU'
        · cases hcyc : canBeCyclic c with
          | false => simpa [List.filter_append, hcyc] using hInv.traceNodup
          | true =>
              have hninT : c ∉ st.trace := fun hmem' =>
                hmem (hInv.traceVisited c hmem' hcyc)
              simpa [List.filter_append, hcyc, List.nodup_append] using
                ⟨hInv.traceNodup, hninT⟩
        · intro t ht hcap
          rcases List.mem_append.mp ht with h | h
          · exact List.mem_append_left _ (hInv.traceVisited t h hcap)
          · simp only [List.mem_singleton] at h
            subst h
            exact List.mem_append_right _ (List.mem_singleton_self _)
        · have hdrop := sum_filter_drop (fun t => wTy env t + 1)
            (fun t => decide (t ∉ st.visited ++ [c]))
            (fun t => decide (t ∉ st.visited)) c
            (by
              intro t ht
              simp only [decide_eq_true_eq] at ht ⊢
              intro hmem'
              exact ht (List.mem_append_left _ hmem'))
            (by simpa using hmem)
            (by simp)
            U hcU'
          have hdrop' :
              ((U.filter fun t => decide (t ∉ st.visited ++ [c])).map
                  fun t => wTy env t + 1).sum + (wTy env c + 1) ≤
                ((U.filter fun t => decide (t ∉ st.visited)).map
                  fun t => wTy env t + 1).sum := hdrop
          simp only [phi, List.map_append, List.sum_append, List.map_cons,
            List.sum_cons, List.map_nil, List.sum_nil]
          omega

theorem foldl_childStep_spec (env : StructEnv) (U : List GTy) :
    ∀ (children : List (Option String × GTy)) (st : BuildState)
      (preds : List TypeNode),
    (∀ p ∈ children, p.2 ≠ GTy.tany → p.2 ∈ U) → Inv U st →
    Inv U (children.foldl childStep (st, preds)).1 ∧
    phi env U (children.foldl childStep (st, preds)).1 ≤
      phi env U st + children.length := by
  intro children
  induction children with
  | nil =>
      intro st preds _ hInv
      exact ⟨hInv, by simp⟩
  | cons hd tl ih =>
      intro st preds hch hInv
      obtain ⟨var, c⟩ := hd
      have h1 := childStep_spec env U var c st preds
        (hch (var, c) (List.mem_cons_self _ _)) hInv
      have h2 := ih (childStep (st, preds) (var, c)).1
        (childStep (st, preds) (var, c)).2
        (fun p hp => hch p (List.mem_cons_of_mem _ hp)) h1.1
      simp only [Prod.mk.eta] at h2
      simp only [List.foldl_cons]
      constructor
      · exact h2.1
      · have hlen := h2.2
        have hstep := h1.2
        simp only [List.length_cons]
        omega

theorem processNode_spec (env : StructEnv) (U : List GTy)
    (hC : ClosedU env U) (parent : TypeNode) (hp : parent.ty ∈ U)
    (st : BuildState) (hInv : Inv U st) :
    Inv U (processNode env parent st) ∧
    phi env U (processNode env parent st) < phi env U st + wTy env parent.ty := by
  unfold processNode
  by_cases hlit : isliteralG parent.ty = true
  · simp only [hlit, if_true]
    refine ⟨⟨hInv.stackU, hInv.traceNodup, hInv.traceVisited⟩, ?_⟩
    have := wTy_pos env parent.ty
    show phi env U st < phi env U st + wTy env parent.ty
    omega
  · simp only [hlit, Bool.false_eq_true, if_false]
    have hch := hC parent.ty hp
    have h := foldl_childStep_spec env U (level env parent.ty) st [] hch hInv
    refine ⟨⟨h.1.stackU, h.1.traceNodup, h.1.traceVisited⟩, ?_⟩
    have hlen : (level env parent.ty).length < wTy env parent.ty := by
      cases hcyc : canBeCyclic parent.ty with
      | true => simp only [wTy, hcyc, if_true]; omega
      | false =>
          rw [level_eq_nil_of_not_cyclic env parent.ty hcyc]
          simp only [wTy, hcyc, Bool.false_eq_true, if_false, List.length_nil]
          omega
    have := h.2
    show phi env U ((level env parent.ty).foldl childStep (st, [])).1 <
      phi env U st + wTy env parent.ty
    omega

theorem buildLoop_spec (env : StructEnv) (U : List GTy) (hC : ClosedU env U) :
    ∀ (fuel : Nat) (s : BuildState), Inv U s → phi env U s < fuel →
    ∃ out, buildLoop env fuel s = some out ∧
      (out.trace.filter canBeCyclic).Nodup := by
  intro fuel
  induction fuel with
  | zero => intro s _ h; exact absurd h (Nat.not_lt_zero _)
  | succ fuel ih =>
      intro s hInv hphi
      cases hs : s.stack with
      | nil => exact ⟨s, by simp [buildLoop, hs], hInv.traceNodup⟩
      | cons parent rest =>
          have hInv' : Inv U { s with stack := rest } :=
            ⟨fun n hn => hInv.stackU n (by rw [hs]; exact List.mem_cons_of_mem _ hn),
              hInv.traceNodup, hInv.traceVisited⟩
          have hpU : parent.ty ∈ U :=
            hInv.stackU parent (by rw [hs]; exact List.mem_cons_self _ _)
          have hstep := processNode_spec env U hC parent hpU _ hInv'
          have hphis : phi env U { s with stack := rest } + wTy env parent.ty =
              phi env U s := by
            simp only [phi, hs, List.map_cons, List.sum_cons]
            omega
          have hnext := ih (processNode env parent { s with stack := rest })
            hstep.1 (by omega)
          obtain ⟨out, hout, hnodup⟩ := hnext
          exact ⟨out, by simp only [buildLoop, hs]; exact hout, hnodup⟩

/-! ## Claim theorems -/

/-- C1: for the self-referential record `R { next: R | None }`, building
the type graph terminates (four loop iterations suffice) and its
`static_order` is a finite four-node sequence whose only `cyclic=True`
node is the forward-reference placeholder standing in for `R`. -/
theorem c1_cyclic_record_graph :
    ((getTypeGraph envR (.tstruct "R") 4).map fun st => staticOrder st.graph) =
      some [⟨.tref "R", Option.none, true⟩, ⟨.tnone, Option.none, false⟩,
        ⟨.tunion (.tstruct "R") .tnone, some "next", false⟩,
        ⟨.tstruct "R", Option.none, false⟩] ∧
    ((getTypeGraph envR (.tstruct "R") 4).map fun st =>
        (staticOrder st.graph).filter (fun n => n.cyclic)) =
      some [⟨.tref "R", Option.none, true⟩] := by
  constructor
  · decide
  · decide

/-- C2, counterexample: the claim says each distinct type is enqueued on
the work list at most once, but for `dict[str, str]` the stdlib scalar
`str` is re-enqueued on its second occurrence (a visited type is only
spared re-enqueueing when it is a cycle candidate), so the enqueue trace
`[dict[str, str], str, str]` contains `str` twice. -/
theorem c2_counterexample_str_reenqueued :
    ((getTypeGraph [] (.tdict .tstr .tstr) 4).map fun st => st.trace) =
      some [.tdict .tstr .tstr, .tstr, .tstr] ∧
    ((getTypeGraph [] (.tdict .tstr .tstr) 4).map
        fun st => st.trace.count .tstr) = some 2 := by
  constructor
  · decide
  · decide

/-- C2 (amended): during graph construction each distinct cycle-capable
type (a subscripted generic or non-stdlib type) is enqueued at most once
— cyclic re-visits never re-enqueue — while a non-cycle-capable stdlib
scalar may be re-enqueued once per occurrence; since such scalars
contribute no children, `get_type_graph` still terminates for every finite
type: over any finite child-closed universe `U` containing the root, the
loop finishes within `phi` + 1 iterations and its enqueue trace restricted
to cycle-capable types has no duplicates. -/
theorem c2_enqueue_once_and_terminates (env : StructEnv) (U : List GTy)
    (root : GTy) (hroot : root ∈ U) (hC : ClosedU env U) :
    ∃ st, getTypeGraph env root (phi env U (initState root) + 1) = some st ∧
      (st.trace.filter canBeCyclic).Nodup := by
  apply buildLoop_spec env U hC
  · refine ⟨?_, ?_, ?_⟩
    · intro n hn
      simp only [initState, List.mem_singleton] at hn
      rw [hn]
      exact hroot
    · cases h : canBeCyclic root <;> simp [initState, h]
    · intro t ht _
      simp only [initState, List.mem_singleton] at ht ⊢
      exact ht
  · omega

/-- C2, witness: the amended claim applied to the concrete universe of
types reachable from `R { next: R | None }`. -/
theorem c2_witness :
    ∃ st, getTypeGraph envR (.tstruct "R")
        (phi envR UR (initState (.tstruct "R")) + 1) = some st ∧
      (st.trace.filter canBeCyclic).Nodup :=
  c2_enqueue_once_and_terminates envR UR (.tstruct "R") (by decide)
    (by unfold ClosedU; decide)

/-- C3: the union unmarshal routine tries each member routine in stack
order, suppressing value/type/syntax/attribute errors per attempt: the
first member that does not raise one of those wins; exhausting every member
raises `ValueError`.  When the union is optional, the `NoneType` member
(placed last by Python in `Optional[...]` arguments) is rotated to the
front of the stack, so `None` is tried first.  Concretely, for
`Union[int, str]`, `"abc"` unmarshals to the string `"abc"` (the `int`
attempt raises and falls through) and `"2"` unmarshals to the integer `2`
(the first successful member in declared order wins). -/
theorem c3_union_ordered_first_success :
    (∀ (pre post : List Routine) (r : Routine) (val v : PyVal),
        (∀ r' ∈ pre, ∃ e, suppressible e = true ∧ r' val = .error e) →
        r val = .ok v →
        unionCall (pre ++ r :: post) val = .ok v) ∧
    (∀ (rs : List Routine) (val : PyVal),
        (∀ r ∈ rs, ∃ e, suppressible e = true ∧ r val = .error e) →
        unionCall rs val = .error .valueError) ∧
    (∀ (args : List GTy) (h : args ≠ []),
        unionStack args true = args.getLast h :: args.dropLast) ∧
    unionStack [GTy.tint, GTy.tnone] true = [GTy.tnone, GTy.tint] ∧
    unionUnmarshaller [.tint, .tstr] false resolveIntStr (.vstr "abc") =
      .ok (.vstr "abc") ∧
    unionUnmarshaller [.tint, .tstr] false resolveIntStr (.vstr "2") =
      .ok (.vint 2) := by
  refine ⟨?_, ?_, ?_, rfl, rfl, rfl⟩
  · intro pre
    induction pre with
    | nil =>
        intro post r val v _ hr
        simp only [List.nil_append, unionCall, hr]
    | cons p pre ih =>
        intro post r val v hpre hr
        obtain ⟨e, hsupp, herr⟩ := hpre p (List.mem_cons_self _ _)
        have := ih post r val v (fun r' hr' => hpre r' (List.mem_cons_of_mem _ hr')) hr
        simp only [List.cons_append, unionCall, herr, hsupp, if_true]
        exact this
  · intro rs
    induction rs with
    | nil => intro val _; rfl
    | cons p rs ih =>
        intro val hall
        obtain ⟨e, hsupp, herr⟩ := hall p (List.mem_cons_self _ _)
        have := ih val (fun r' hr' => hall r' (List.mem_cons_of_mem _ hr'))
        simp only [unionCall, herr, hsupp, if_true]
        exact this
  · intro args h
    simp only [unionStack, if_true, List.getLast?_eq_getLast args h]

/-- C3, witness: the first-success rule instantiated at `Union[int, str]`
with input `"abc"` — the `int` member raises a suppressible `ValueError`
and the `str` member's result is returned. -/
theorem c3_witness :
    unionCall ([numberUnmarshalInt] ++ stringUnmarshal :: []) (.vstr "abc") =
      .ok (.vstr "abc") :=
  c3_union_ordered_first_success.1 [numberUnmarshalInt] [] stringUnmarshal
    (.vstr "abc") (.vstr "abc")
    (by
      intro r' hr'
      simp only [List.mem_singleton] at hr'
      rw [hr']
      exact ⟨.valueError, rfl, rfl⟩)
    rfl

/-- C5: the fixed-tuple routines zip the per-position routines against the
input's values with truncating-zip semantics in both directions: a
successful conversion has exactly `min` (declared arity, input length)
elements, input positions beyond the declared arity are never even
inspected, and a length mismatch by itself never raises.  Concretely,
unmarshalling `["field", "1", "extra"]` at `tuple[str, int]` yields exactly
`("field", 1)`, a shorter input yields a correspondingly shorter result,
and the marshal direction truncates identically. -/
theorem c5_fixed_tuple_truncating_zip :
    (∀ (rs : List Routine) (xs res : List PyVal),
        zipApply rs xs = .ok res → res.length = min rs.length xs.length) ∧
    (∀ (rs : List Routine) (xs ys : List PyVal), rs.length ≤ xs.length →
        zipApply rs (xs ++ ys) = zipApply rs xs) ∧
    fixedTupleUnmarshal [stringUnmarshal, numberUnmarshalInt]
        (.vlist [.vstr "field", .vstr "1", .vstr "extra"]) =
      .ok (.vtuple [.vstr "field", .vint 1]) ∧
    fixedTupleUnmarshal [stringUnmarshal, numberUnmarshalInt]
        (.vlist [.vstr "field"]) = .ok (.vtuple [.vstr "field"]) ∧
    fixedTupleMarshal [stringMarshal, intCastMarshal]
        (.vtuple [.vstr "field", .vint 1, .vstr "extra"]) =
      .ok (.vlist [.vstr "field", .vint 1]) := by
  refine ⟨?_, ?_, rfl, rfl, rfl⟩
  · intro rs
    induction rs with
    | nil =>
        intro xs res h
        simp only [zipApply] at h
        cases h
        simp
    | cons r rs ih =>
        intro xs res h
        cases xs with
        | nil =>
            simp only [zipApply] at h
            cases h
            simp
        | cons x xs =>
            simp only [zipApply, bind, Except.bind] at h
            cases hr : r x with
            | error e => rw [hr] at h; cases h
            | ok y =>
                rw [hr] at h
                cases hrest : zipApply rs xs with
                | error e => rw [hrest] at h; cases h
                | ok ys =>
                    rw [hrest] at h
                    simp only [pure, Except.pure, Except.ok.injEq] at h
                    subst h
                    simp only [List.length_cons, ih xs ys hrest]
                    omega
  · intro rs
    induction rs with
    | nil => intro xs ys _; rfl
    | cons r rs ih =>
        intro xs ys hlen
        cases xs with
        | nil => simp at hlen
        | cons x xs =>
            simp only [List.cons_append, zipApply, List.append_eq]
            rw [ih xs ys (by simpa using hlen)]

/-- C5, witness: the result-length rule applied to the concrete
three-element unmarshal of `tuple[str, int]`. -/
theorem c5_witness :
    [PyVal.vstr "field", PyVal.vint 1].length =
      min [stringUnmarshal, numberUnmarshalInt].length
        [PyVal.vstr "field", PyVal.vstr "1", PyVal.vstr "extra"].length :=
  c5_fixed_tuple_truncating_zip.1 [stringUnmarshal, numberUnmarshalInt]
    [.vstr "field", .vstr "1", .vstr "extra"] [.vstr "field", .vint 1] rfl

/-- C6: the literal unmarshal routine returns the input if it is a member
of the declared value set, otherwise returns the decoded input if that is
a member, and raises `ValueError` exactly when neither is.  Concretely, at
`Literal[1, 2, 3]` the value `4` raises a `ValueError`, and the string
`"2"` is first decoded to the integer `2`, which is a declared member and
is returned. -/
theorem c6_literal_enforcement :
    literalCall [.vint 1, .vint 2, .vint 3] (.vint 4) = .error .valueError ∧
    literalCall [.vint 1, .vint 2, .vint 3] (.vstr "2") = .ok (.vint 2) ∧
    (∀ (values : List PyVal) (val : PyVal),
        (pyMem val values = true → literalCall values val = .ok val) ∧
        (pyMem val values = false → pyMem (load val) values = true →
          literalCall values val = .ok (load val)) ∧
        (literalCall values val = .error .valueError ↔
          pyMem val values = false ∧ pyMem (load val) values = false)) := by
  refine ⟨rfl, rfl, ?_⟩
  intro values val
  refine ⟨?_, ?_, ?_⟩
  · intro h
    simp only [literalCall, h, if_true]
  · intro h1 h2
    simp only [literalCall, h1, Bool.false_eq_true, if_false, h2, if_true]
  · constructor
    · intro h
      by_cases h1 : pyMem val values = true
      · simp only [literalCall, h1, if_true] at h
        cases h
      · have h1' : pyMem val values = false := by simpa using h1
        by_cases h2 : pyMem (load val) values = true
        · simp only [literalCall, h1', Bool.false_eq_true, if_false, h2,
            if_true] at h
          cases h
        · exact ⟨h1', by simpa using h2⟩
    · intro ⟨h1, h2⟩
      simp only [literalCall, h1, h2, Bool.false_eq_true, if_false]

/-- C6, witness: membership acceptance applied at `Literal[1, 2, 3]` with
the member `2` itself. -/
theorem c6_witness :
    literalCall [.vint 1, .vint 2, .vint 3] (.vint 2) = .ok (.vint 2) :=
  ((c6_literal_enforcement.2.2 [.vint 1, .vint 2, .vint 3] (.vint 2)).1) rfl

theorem structKwargs_skip (fields : List (String × Routine)) (k : String)
    (hk : fieldsLookup fields k = Option.none) :
    ∀ (pre post : List (String × PyVal)) (v : PyVal),
      structKwargs fields (pre ++ (k, v) :: post) =
        structKwargs fields (pre ++ post) := by
  intro pre
  induction pre with
  | nil =>
      intro post v
      simp only [List.nil_append, structKwargs, hk]
  | cons p pre ih =>
      intro post v
      obtain ⟨f, w⟩ := p
      cases h : fieldsLookup fields f with
      | some r =>
          simp only [List.cons_append, structKwargs, h, List.append_eq]
          rw [ih post v]
      | none =>
          simp only [List.cons_append, structKwargs, h, List.append_eq]
          exact ih post v

theorem structKwargs_keys (fields : List (String × Routine)) :
    ∀ (pairs kwargs : List (String × PyVal)),
      structKwargs fields pairs = .ok kwargs →
      kwargs.map Prod.fst =
        (pairs.map Prod.fst).filter (fun f => (fieldsLookup fields f).isSome) := by
  intro pairs
  induction pairs with
  | nil =>
      intro kwargs h
      simp only [structKwargs, Except.ok.injEq] at h
      subst h
      rfl
  | cons p rest ih =>
      intro kwargs h
      obtain ⟨f, v⟩ := p
      cases hf : fieldsLookup fields f with
      | some r =>
          simp only [structKwargs, hf, bind, Except.bind] at h
          cases hr : r v with
          | error e => rw [hr] at h; cases h
          | ok x =>
              rw [hr] at h
              cases hrest : structKwargs fields rest with
              | error e => rw [hrest] at h; cases h
              | ok xs =>
                  rw [hrest] at h
                  simp only [pure, Except.pure, Except.ok.injEq] at h
                  subst h
                  simp only [List.map_cons, List.filter_cons, hf,
                    Option.isSome_some, if_true, ih xs hrest]
      | none =>
          simp only [structKwargs, hf] at h
          simp only [List.map_cons, List.filter_cons, hf, Option.isSome_none,
            Bool.false_eq_true, if_false]
          exact ih kwargs h

/-- C7: the structured-record routines convert exactly the fields present
in both the input and the compiled field table, in both directions: a
field present in the input but absent from the table is silently dropped
(removing it leaves the result unchanged, at any position, so an extra
input field can never raise), and on success the produced keyword set is
precisely the input keys filtered through the table.  Concretely,
unmarshalling `{"field": "x", "value": "1", "extra": 9}` for
`Data{field: str, value: int}` drops `"extra"` without error. -/
theorem c7_struct_drops_unknown_fields :
    (∀ (fields : List (String × Routine))
        (construct : List (String × PyVal) → Except PyErr PyVal)
        (pre post : List (String × PyVal)) (k : String) (v : PyVal),
        fieldsLookup fields k = Option.none →
        structUnmarshal fields construct (.vdict (pre ++ (k, v) :: post)) =
          structUnmarshal fields construct (.vdict (pre ++ post))) ∧
    (∀ (fields : List (String × Routine)) (pre post : List (String × PyVal))
        (k : String) (v : PyVal),
        fieldsLookup fields k = Option.none →
        structMarshal fields (pre ++ (k, v) :: post) =
          structMarshal fields (pre ++ post)) ∧
    (∀ (fields : List (String × Routine)) (pairs kwargs : List (String × PyVal)),
        structKwargs fields pairs = .ok kwargs →
        kwargs.map Prod.fst =
          (pairs.map Prod.fst).filter (fun f => (fieldsLookup fields f).isSome)) ∧
    structUnmarshal dataFields okDictConstruct
        (.vdict [("field", .vstr "x"), ("value", .vstr "1"), ("extra", .vint 9)]) =
      .ok (.vdict [("field", .vstr "x"), ("value", .vint 1)]) := by
  refine ⟨?_, ?_, structKwargs_keys, rfl⟩
  · intro fields construct pre post k v hk
    calc structUnmarshal fields construct (.vdict (pre ++ (k, v) :: post))
        = (structKwargs fields (pre ++ (k, v) :: post)).bind construct := rfl
      _ = (structKwargs fields (pre ++ post)).bind construct := by
            rw [structKwargs_skip fields k hk pre post v]
      _ = structUnmarshal fields construct (.vdict (pre ++ post)) := rfl
  · intro fields pre post k v hk
    calc structMarshal fields (pre ++ (k, v) :: post)
        = (structKwargs fields (pre ++ (k, v) :: post)).bind
            (fun kw => .ok (.vdict kw)) := rfl
      _ = (structKwargs fields (pre ++ post)).bind
            (fun kw => .ok (.vdict kw)) := by
            rw [structKwargs_skip fields k hk pre post v]
      _ = structMarshal fields (pre ++ post) := rfl

/-- C7, witness: the unmarshal-direction drop rule applied to the concrete
`Data` record with the extra key `"extra"` in the middle of the input. -/
theorem c7_witness :
    structUnmarshal dataFields okDictConstruct
        (.vdict ([("field", .vstr "x")] ++ ("extra", .vint 9) ::
          [("value", .vstr "1")])) =
      structUnmarshal dataFields okDictConstruct
        (.vdict ([("field", .vstr "x")] ++ [("value", .vstr "1")])) :=
  c7_struct_drops_unknown_fields.1 dataFields okDictConstruct
    [("field", .vstr "x")] [("value", .vstr "1")] "extra" (.vint 9) rfl

theorem cachedCall_stable {α β : Type} [DecidableEq α] (f : α → β)
    (cache : List (α × β)) (a : α) (r : β) (cache' : List (α × β))
    (fresh : Bool) (h : cachedCall f cache a = (r, cache', fresh)) :
    cachedCall f cache' a = (r, cache', false) := by
  unfold cachedCall at h ⊢
  cases hf : cache.find? (fun p => p.1 = a) with
  | some p =>
      rw [hf] at h
      simp only [Prod.mk.injEq] at h
      obtain ⟨h1, h2, _⟩ := h
      subst h1
      subst h2
      rw [hf]
  | none =>
      rw [hf] at h
      simp only [Prod.mk.injEq] at h
      obtain ⟨h1, h2, _⟩ := h
      subst h1
      subst h2
      have hfind : (cache ++ [(a, f a)]).find? (fun p => p.1 = a) =
          some (a, f a) := by
        rw [List.find?_append, hf]
        simp
      rw [hfind]

/-- C8: repeated calls to the memoised compilation entry points with the
same type return the stored routine: whatever a first call to
`marshaller(T)` (resp. `unmarshaller(T)`) returned, a second call with the
same `T` returns that very cache entry, leaves the cache unchanged, and
does not invoke the compilation body again (`fresh = false`) — the
cache-hit modelling of `marshaller(T) is marshaller(T)`. -/
theorem c8_compile_memoization :
    (∀ (compile : GTy → Routine) (cache : List (GTy × Routine)) (t : GTy)
        (r : Routine) (cache' : List (GTy × Routine)) (fresh : Bool),
        marshallerMemo compile cache t = (r, cache', fresh) →
        marshallerMemo compile cache' t = (r, cache', false)) ∧
    (∀ (compile : GTy → Routine) (cache : List (GTy × Routine)) (t : GTy)
        (r : Routine) (cache' : List (GTy × Routine)) (fresh : Bool),
        unmarshallerMemo compile cache t = (r, cache', fresh) →
        unmarshallerMemo compile cache' t = (r, cache', false)) :=
  ⟨fun compile cache t r cache' fresh h =>
      cachedCall_stable compile cache t r cache' fresh h,
    fun compile cache t r cache' fresh h =>
      cachedCall_stable compile cache t r cache' fresh h⟩

/-- C8, witness: a first call for `int` populates the cache; the second
call returns the stored entry without compiling. -/
theorem c8_witness :
    marshallerMemo (fun _ => fun v => .ok v)
        [(GTy.tint, fun v => Except.ok v)] GTy.tint =
      (fun v => Except.ok v, [(GTy.tint, fun v => Except.ok v)], false) :=
  c8_compile_memoization.1 (fun _ => fun v => .ok v) [] GTy.tint
    (fun v => Except.ok v) [(GTy.tint, fun v => Except.ok v)] true rfl

/-- C9: for numeric input (int or float), the timedelta unmarshal routine
returns `t(seconds=int(val))` — the fractional part of a float is silently
truncated toward zero; in particular `1.9` (exactly `19/10` in the model)
unmarshals to a one-second timedelta, not a 1.9-second one. -/
theorem c9_timedelta_truncates_numeric :
    (∀ n : Int, timedeltaUnmarshal (.vint n) =
      .ok (.vtimedelta (n * 1000000))) ∧
    (∀ q : Rat, timedeltaUnmarshal (.vfloat q) =
      .ok (.vtimedelta (pytrunc q * 1000000))) ∧
    timedeltaUnmarshal (.vfloat ratNineteenTenths) =
      .ok (.vtimedelta 1000000) :=
  ⟨fun _ => rfl, fun _ => rfl, rfl⟩

/-- C4: evaluation of the duration round trip at the failing input
`timedelta(days=8)`.  `serdes.isoformat` reads pendulum's
`remaining_days` (= days mod 7) but never the `weeks` property, so eight
days marshal to `"P1DT"`; unmarshalling that string yields a one-day
timedelta, so `unmarshal(timedelta, marshal(v)) ≠ v` — the round-trip
claim fails on the code even though its concrete `"PT1S"` instance (last
two conjuncts) does hold in both directions. -/
theorem c4_duration_roundtrip_failing_input :
    isoformat (8 * 86400 * 1000000) = "P1DT" ∧
    timedeltaUnmarshal (.vstr "P1DT") = .ok (.vtimedelta (86400 * 1000000)) ∧
    (timedeltaMarshal (.vtimedelta (8 * 86400 * 1000000))).bind
        timedeltaUnmarshal = .ok (.vtimedelta (86400 * 1000000)) ∧
    (Except.ok (PyVal.vtimedelta (86400 * 1000000)) :
        Except PyErr PyVal) ≠
      .ok (.vtimedelta (8 * 86400 * 1000000)) ∧
    timedeltaMarshal (.vtimedelta 1000000) = .ok (.vstr "PT1S") ∧
    timedeltaUnmarshal (.vstr "PT1S") = .ok (.vtimedelta 1000000) := by
  refine ⟨rfl, rfl, rfl, ?_, rfl, rfl⟩
  intro h
  simp only [Except.ok.injEq, PyVal.vtimedelta.injEq] at h
  omega

theorem find?_of_ctxFind_none {τ V : Type} [DecidableEq τ]
    (ctx : List (CtxKey τ × V)) (key : CtxKey τ)
    (h : ctxFind ctx key = Option.none) :
    ctx.find? (fun p => p.1 = key) = Option.none := by
  unfold ctxFind at h
  cases hf : ctx.find? (fun p => p.1 = key) with
  | some p => rw [hf] at h; cases h
  | none => rfl

/-- C10: `TypeContext` lookup semantics.  A missed `ForwardRef` key raises
`KeyError` immediately (so the fallback chain terminates); a missed
concrete key whose unwrapped form is present returns the routine stored at
the unwrapped key and additionally stores it under the originally
requested key, making a subsequent lookup of that key a direct hit;
otherwise the lookup retries exactly once with the forward-reference form
of the key (whose own miss is the immediate `KeyError`). -/
theorem c10_type_context_lookup {τ V : Type} [DecidableEq τ]
    (unwrap : τ → τ) (mkref : τ → String) (ctx : List (CtxKey τ × V)) :
    (∀ r : String, ctxFind ctx (.fref r) = Option.none →
        ctxGetItem unwrap mkref ctx (.fref r) = .error .keyError) ∧
    (∀ (t : τ) (v : V), ctxFind ctx (.concrete t) = Option.none →
        ctxFind ctx (.concrete (unwrap t)) = some v →
        ctxGetItem unwrap mkref ctx (.concrete t) =
          .ok (v, ctx ++ [(.concrete t, v)]) ∧
        ctxFind (ctx ++ [(.concrete t, v)]) (.concrete t) = some v) ∧
    (∀ t : τ, ctxFind ctx (.concrete t) = Option.none →
        ctxFind ctx (.concrete (unwrap t)) = Option.none →
        ctxGetItem unwrap mkref ctx (.concrete t) =
          match ctxFind ctx (.fref (mkref t)) with
          | some v => .ok (v, ctx)
          | Option.none => .error .keyError) := by
  refine ⟨?_, ?_, ?_⟩
  · intro r h
    simp only [ctxGetItem, h, ctxMissing]
  · intro t v h1 h2
    constructor
    · simp only [ctxGetItem, h1, ctxMissing, h2]
    · unfold ctxFind
      rw [List.find?_append, find?_of_ctxFind_none ctx (.concrete t) h1]
      simp
  · intro t h1 h2
    simp only [ctxGetItem, h1, ctxMissing, h2]

/-- C10, witness: the spill-over branch at a concrete context — the key
`str` is absent, its unwrapped form (here, everything unwraps to `int`) is
present, so the lookup returns the `int` entry and stores it under `str`,
and the follow-up lookup of `str` is a direct hit. -/
theorem c10_witness :
    ctxGetItem (fun _ => GTy.tint) tyName [(CtxKey.concrete GTy.tint, 0)]
        (.concrete GTy.tstr) =
      .ok (0, [(CtxKey.concrete GTy.tint, 0)] ++ [(CtxKey.concrete GTy.tstr, 0)]) ∧
    ctxFind ([(CtxKey.concrete GTy.tint, 0)] ++ [(CtxKey.concrete GTy.tstr, 0)])
        (.concrete GTy.tstr) = some 0 :=
  (c10_type_context_lookup (fun _ => GTy.tint) tyName
      [(CtxKey.concrete GTy.tint, (0 : Nat))]).2.1 GTy.tstr 0 rfl rfl

end Typelib
